import Mathlib

/-!
Verification of the LiteJiraUpdateAction pipeline (latest revision of the
action script): Jira issue-key extraction from PR text fragments, one-hop
related-issue expansion, and the merge/publish orchestration of `runWithPR`.

Each definition is a shallow embedding of the corresponding JavaScript
function; stateful network interaction is modelled by passing the transport
as an explicit oracle and recording the calls the run issues.
-/

namespace LiteJira

/-! ### Character classes of the regex `\b[A-Z]{2,10}-\d+\b` -/

/-- `[A-Z]` of the key regex. -/
def isUpperAZ (c : Char) : Bool := decide ('A' ≤ c) && decide (c ≤ 'Z')

/-- `\d` of the key regex. -/
def isDigit09 (c : Char) : Bool := decide ('0' ≤ c) && decide (c ≤ '9')

/-- `[a-z]`, used only for word-boundary classification. -/
def isLowerAZ (c : Char) : Bool := decide ('a' ≤ c) && decide (c ≤ 'z')

/-- A regex word character `[A-Za-z0-9_]`, the class that `\b` tests. -/
def isWordChar (c : Char) : Bool :=
  isUpperAZ c || isLowerAZ c || isDigit09 c || decide (c = '_')

/-- Does the remaining input start with a word character?  (`\b` after the
digits requires it does not; end of input is a boundary.) -/
def wordStart : List Char → Bool
  | [] => false
  | c :: _ => isWordChar c

/-! ### The scanner for `/\b[A-Z]{2,10}-\d+\b/g`

JavaScript's global match finds, left to right, each position where the
pattern matches.  A match at a position requires: the previous character is
not a word character (`\b` before a letter), a maximal run of 2–10 uppercase
letters (the greedy `[A-Z]{2,10}` can only succeed on the whole run, since a
shorter prefix is followed by another letter, not `-`), a hyphen, a maximal
nonempty digit run, and then a non-word character or end of input (`\b`).
The engine resumes after the matched digits; since no position strictly
inside a match can start a match (each is preceded by a word character or is
not a letter), resuming one character later, as `scanKeys` does, yields the
same match list. -/

/-- The match attempt of `/\b[A-Z]{2,10}-\d+\b/` at the position of `c`,
given whether the preceding character was a word character. -/
def keyAt (c : Char) (rest : List Char) (prevWord : Bool) : Option String :=
  if isUpperAZ c && !prevWord then
    let letters := (c :: rest).takeWhile isUpperAZ
    match (c :: rest).dropWhile isUpperAZ with
    | '-' :: afterHyphen =>
      let digits := afterHyphen.takeWhile isDigit09
      if 2 ≤ letters.length && letters.length ≤ 10 && 1 ≤ digits.length
          && !(wordStart (afterHyphen.dropWhile isDigit09)) then
        some (String.mk (letters ++ '-' :: digits))
      else none
    | _ => none
  else none

/-- All matches of `/\b[A-Z]{2,10}-\d+\b/g` on the input, in order. -/
def scanKeys : List Char → Bool → List String
  | [], _ => []
  | c :: rest, prevWord => (keyAt c rest prevWord).toList ++ scanKeys rest (isWordChar c)

/-! ### `extractIssueKeys` -/

/-- `Set.add` on a JavaScript `Set` materialised as its insertion-order
list: appends the key unless already present. -/
def insertKey (ks : List String) (k : String) : List String :=
  if k ∈ ks then ks else ks ++ [k]

/-- The uppercased character sequence of a fragment (`text.toUpperCase()`). -/
def upperList (s : String) : List Char := s.data.map Char.toUpper

/-- Processing of one optional text fragment by `extractIssueKeys`:
falsy fragments (`undefined`, empty) are skipped, otherwise every regex
match of the uppercased fragment is added to the accumulated key set. -/
def extractFromText (ks : List String) (otext : Option String) : List String :=
  match otext with
  | none => ks
  | some t => if t = "" then ks else (scanKeys (upperList t) false).foldl insertKey ks

/-- `extractIssueKeys(texts)`: fold every fragment into one deduplicated,
insertion-ordered list of keys. -/
def extractIssueKeys (texts : List (Option String)) : List String :=
  texts.foldl extractFromText []

/-- The part of a well-formed key after its letters: a hyphen then one or
more digits and nothing else. -/
def hyphenDigits : List Char → Bool
  | '-' :: ds => 1 ≤ ds.length && ds.all isDigit09
  | _ => false

/-- A well-formed normalized issue key: 2–10 uppercase ASCII letters, one
hyphen, then one or more digits, and nothing else. -/
def isWellFormedKey (s : String) : Bool :=
  2 ≤ (s.data.takeWhile isUpperAZ).length && (s.data.takeWhile isUpperAZ).length ≤ 10
    && hyphenDigits (s.data.dropWhile isUpperAZ)

/-! ### Properties of `insertKey` folds -/

theorem mem_insertKey {ks : List String} {k x : String} :
    x ∈ insertKey ks k ↔ x ∈ ks ∨ x = k := by
  unfold insertKey
  split
  · constructor
    · exact Or.inl
    · rintro (hx | rfl)
      · exact hx
      · assumption
  · simp

theorem nodup_insertKey {ks : List String} {k : String} (h : ks.Nodup) :
    (insertKey ks k).Nodup := by
  unfold insertKey
  split
  · exact h
  · refine (List.perm_append_singleton k ks).nodup_iff.mpr ?_
    exact List.nodup_cons.mpr ⟨by assumption, h⟩

theorem mem_foldl_insertKey {x : String} :
    ∀ (l ks : List String), x ∈ l.foldl insertKey ks ↔ x ∈ ks ∨ x ∈ l := by
  intro l
  induction l with
  | nil => simp
  | cons a l ih =>
    intro ks
    rw [List.foldl_cons, ih, mem_insertKey]
    simp [or_assoc]

theorem nodup_foldl_insertKey :
    ∀ (l ks : List String), ks.Nodup → (l.foldl insertKey ks).Nodup := by
  intro l
  induction l with
  | nil => intro ks h; exact h
  | cons a l ih => intro ks h; exact ih _ (nodup_insertKey h)

/-! ### Well-formedness of scanner output -/

theorem takeWhile_append_cons (p : Char → Bool) (b : Char) :
    ∀ (l : List Char), (∀ x ∈ l, p x = true) → p b = false → ∀ t,
      (l ++ b :: t).takeWhile p = l ∧ (l ++ b :: t).dropWhile p = b :: t := by
  intro l
  induction l with
  | nil =>
    intro _ hb t
    constructor
    · simp [List.takeWhile_cons, hb]
    · simp [List.dropWhile_cons, hb]
  | cons a l ih =>
    intro hl hb t
    have ha : p a = true := hl a (by simp)
    have := ih (fun x hx => hl x (by simp [hx])) hb t
    constructor
    · simpa [List.takeWhile_cons_of_pos ha] using this.1
    · simpa [List.dropWhile_cons_of_pos ha] using this.2

theorem keyAt_wf {c : Char} {rest : List Char} {b : Bool} {s : String}
    (h : keyAt c rest b = some s) : isWellFormedKey s = true := by
  unfold keyAt at h
  split at h
  case isTrue hcb =>
    split at h
    case h_1 afterHyphen heq =>
      dsimp only at h
      split at h
      case isTrue hcond =>
        rw [Option.some.injEq] at h
        subst h
        have hletters : ∀ x ∈ (c :: rest).takeWhile isUpperAZ, isUpperAZ x = true :=
          fun x hx => List.mem_takeWhile_imp hx
        have hdigits : ∀ x ∈ afterHyphen.takeWhile isDigit09, isDigit09 x = true :=
          fun x hx => List.mem_takeWhile_imp hx
        obtain ⟨htake, hdrop⟩ :=
          takeWhile_append_cons isUpperAZ '-' ((c :: rest).takeWhile isUpperAZ) hletters
            (by decide) (afterHyphen.takeWhile isDigit09)
        simp only [Bool.and_eq_true, decide_eq_true_eq] at hcond
        obtain ⟨⟨⟨h1, h2⟩, h3⟩, _⟩ := hcond
        unfold isWellFormedKey
        rw [show (String.mk ((c :: rest).takeWhile isUpperAZ
              ++ '-' :: afterHyphen.takeWhile isDigit09)).data =
            (c :: rest).takeWhile isUpperAZ ++ '-' :: afterHyphen.takeWhile isDigit09 from rfl,
          htake, hdrop]
        simp only [hyphenDigits, Bool.and_eq_true, decide_eq_true_eq, List.all_eq_true]
        exact ⟨⟨h1, h2⟩, h3, hdigits⟩
      case isFalse => exact absurd h (by simp)
    case h_2 => exact absurd h (by simp)
  case isFalse => exact absurd h (by simp)

theorem scanKeys_wf :
    ∀ (cs : List Char) (b : Bool) (s : String), s ∈ scanKeys cs b →
      isWellFormedKey s = true := by
  intro cs
  induction cs with
  | nil => intro b s h; simp [scanKeys] at h
  | cons c rest ih =>
    intro b s h
    rw [scanKeys, List.mem_append] at h
    rcases h with h | h
    · cases hk : keyAt c rest b with
      | none => rw [hk] at h; simp at h
      | some s' =>
        rw [hk] at h
        simp only [Option.toList_some, List.mem_singleton] at h
        exact h ▸ keyAt_wf hk
    · exact ih _ s h

/-! ### Membership and distinctness for `extractIssueKeys` -/

theorem mem_extractFold {x : String} :
    ∀ (texts : List (Option String)) (ks : List String),
      x ∈ texts.foldl extractFromText ks ↔
        x ∈ ks ∨ ∃ t, some t ∈ texts ∧ x ∈ scanKeys (upperList t) false := by
  intro texts
  induction texts with
  | nil => simp
  | cons ot ts ih =>
    intro ks
    rw [List.foldl_cons, ih]
    cases ot with
    | none => simp [extractFromText]
    | some t =>
      by_cases ht : t = ""
      · subst ht
        have hred : extractFromText ks (some "") = ks := rfl
        rw [hred]
        constructor
        · rintro (hx | ⟨u, hu, hxu⟩)
          · exact Or.inl hx
          · exact Or.inr ⟨u, List.mem_cons_of_mem _ hu, hxu⟩
        · rintro (hx | ⟨u, hu, hxu⟩)
          · exact Or.inl hx
          · rcases List.mem_cons.mp hu with hu | hu
            · rw [Option.some.injEq] at hu
              subst hu
              exact absurd hxu (by simp [scanKeys, upperList])
            · exact Or.inr ⟨u, hu, hxu⟩
      · have hred : extractFromText ks (some t) =
            (scanKeys (upperList t) false).foldl insertKey ks := by
          simp only [extractFromText, if_neg ht]
        rw [hred, mem_foldl_insertKey]
        constructor
        · rintro ((hx | hx) | ⟨u, hu, hxu⟩)
          · exact Or.inl hx
          · exact Or.inr ⟨t, List.mem_cons_self _ _, hx⟩
          · exact Or.inr ⟨u, List.mem_cons_of_mem _ hu, hxu⟩
        · rintro (hx | ⟨u, hu, hxu⟩)
          · exact Or.inl (Or.inl hx)
          · rcases List.mem_cons.mp hu with hu | hu
            · rw [Option.some.injEq] at hu
              exact Or.inl (Or.inr (hu ▸ hxu))
            · exact Or.inr ⟨u, hu, hxu⟩

theorem mem_extractIssueKeys {x : String} {texts : List (Option String)} :
    x ∈ extractIssueKeys texts ↔
      ∃ t, some t ∈ texts ∧ x ∈ scanKeys (upperList t) false := by
  rw [extractIssueKeys, mem_extractFold]
  simp

theorem nodup_extractFold :
    ∀ (texts : List (Option String)) (ks : List String), ks.Nodup →
      (texts.foldl extractFromText ks).Nodup := by
  intro texts
  induction texts with
  | nil => intro ks h; exact h
  | cons ot ts ih =>
    intro ks h
    refine ih _ ?_
    cases ot with
    | none => exact h
    | some t =>
      by_cases ht : t = ""
      · subst ht
        exact h
      · have hred : extractFromText ks (some t) =
            (scanKeys (upperList t) false).foldl insertKey ks := by
          simp only [extractFromText, if_neg ht]
        rw [hred]
        exact nodup_foldl_insertKey _ _ h

theorem nodup_extractIssueKeys (texts : List (Option String)) :
    (extractIssueKeys texts).Nodup :=
  nodup_extractFold texts [] List.nodup_nil

theorem extractIssueKeys_wf {texts : List (Option String)} {k : String}
    (h : k ∈ extractIssueKeys texts) : isWellFormedKey k = true := by
  obtain ⟨t, _, hk⟩ := mem_extractIssueKeys.mp h
  exact scanKeys_wf _ _ _ hk

/-! ### The one-hop key-set aggregation of `runWithPR`

`const allKeys = new Set(issueKeys); for (const issueKey of issueKeys) {
  const relatedKeys = await getRelatedIssueKeys(issueKey);
  relatedKeys.forEach((k) => allKeys.add(k)); }` -/

/-- The aggregated key set: the seeds, then every first-hop related key of
each seed, in insertion order. -/
def aggregateKeys (seeds : List String) (resolver : String → List String) : List String :=
  seeds.foldl (fun acc k => (resolver k).foldl insertKey acc) (seeds.foldl insertKey [])

theorem mem_aggregate_fold {r : String → List String} {x : String} :
    ∀ (l acc : List String),
      x ∈ l.foldl (fun acc k => (r k).foldl insertKey acc) acc ↔
        x ∈ acc ∨ ∃ s ∈ l, x ∈ r s := by
  intro l
  induction l with
  | nil => simp
  | cons a l ih =>
    intro acc
    rw [List.foldl_cons, ih, mem_foldl_insertKey]
    constructor
    · rintro ((hx | hx) | ⟨s, hs, hxs⟩)
      · exact Or.inl hx
      · exact Or.inr ⟨a, List.mem_cons_self _ _, hx⟩
      · exact Or.inr ⟨s, List.mem_cons_of_mem _ hs, hxs⟩
    · rintro (hx | ⟨s, hs, hxs⟩)
      · exact Or.inl (Or.inl hx)
      · rcases List.mem_cons.mp hs with hs | hs
        · exact Or.inl (Or.inr (hs ▸ hxs))
        · exact Or.inr ⟨s, hs, hxs⟩

theorem mem_aggregateKeys {seeds : List String} {r : String → List String} {x : String} :
    x ∈ aggregateKeys seeds r ↔ x ∈ seeds ∨ ∃ s ∈ seeds, x ∈ r s := by
  rw [aggregateKeys, mem_aggregate_fold, mem_foldl_insertKey]
  simp

theorem nodup_aggregate_fold {r : String → List String} :
    ∀ (l acc : List String), acc.Nodup →
      (l.foldl (fun acc k => (r k).foldl insertKey acc) acc).Nodup := by
  intro l
  induction l with
  | nil => intro acc h; exact h
  | cons a l ih => intro acc h; exact ih _ (nodup_foldl_insertKey _ _ h)

theorem nodup_aggregateKeys (seeds : List String) (r : String → List String) :
    (aggregateKeys seeds r).Nodup :=
  nodup_aggregate_fold _ _ (nodup_foldl_insertKey _ _ List.nodup_nil)

/-! ### The related-issue resolver `getRelatedIssueKeys`

The transport is an oracle from issue key to the tracker's reply.  A reply
is a transport error, or an HTTP response; a response body that fails to
parse, or parses without usable `fields`, is `none` — in the script either
case throws inside the `try` and is caught, yielding `[]`. -/

/-- One entry of `fields.issuelinks`: the optional keys of the optional
`inwardIssue` and `outwardIssue` objects. -/
structure IssueLink where
  inwardKey : Option String
  outwardKey : Option String

/-- The `fields` object of the tracker's issue response; `subtasks` holds
each subtask's optional `key`. -/
structure IssueFields where
  subtasks : Option (List (Option String))
  issuelinks : Option (List IssueLink)

/-- A reply of the tracker to the resolver's GET. -/
inductive TrackerReply where
  | netError (msg : String)
  | reply (ok : Bool) (status : Nat) (fields : Option IssueFields)

/-- A reply on which the resolver cannot produce related keys: transport
error, non-success status, or unusable body. -/
def isFailureReply : TrackerReply → Bool
  | .netError _ => true
  | .reply ok _ fields => !ok || fields.isNone

/-- `x && set.add(x)` for an optional, possibly empty key: JavaScript adds
the key only when it is truthy. -/
def addIfTruthy (ks : List String) (k : Option String) : List String :=
  match k with
  | none => ks
  | some s => if s = "" then ks else insertKey ks s

/-- `getRelatedIssueKeys(issueKey)`: the subtask keys then the inward and
outward link keys of the fetched issue, deduplicated; `[]` on any failure. -/
def getRelatedIssueKeys (fetch : String → TrackerReply) (issueKey : String) : List String :=
  match fetch issueKey with
  | .netError _ => []
  | .reply ok _ fieldsOpt =>
    if !ok then []
    else
      match fieldsOpt with
      | none => []
      | some fields =>
        let withSubtasks := (fields.subtasks.getD []).foldl addIfTruthy []
        (fields.issuelinks.getD []).foldl
          (fun acc link => addIfTruthy (addIfTruthy acc link.inwardKey) link.outwardKey)
          withSubtasks

theorem getRelatedIssueKeys_of_failure {fetch : String → TrackerReply} {k : String}
    (h : isFailureReply (fetch k) = true) : getRelatedIssueKeys fetch k = [] := by
  unfold getRelatedIssueKeys
  cases hf : fetch k with
  | netError msg => rfl
  | reply ok status fieldsOpt =>
    rw [hf] at h
    unfold isFailureReply at h
    cases ok with
    | false => rfl
    | true =>
      simp only [Bool.not_true, Bool.false_or, Option.isNone_iff_eq_none] at h
      rw [h]
      rfl

theorem getRelatedIssueKeys_congr {f₁ f₂ : String → TrackerReply} {k : String}
    (h : f₁ k = f₂ k) : getRelatedIssueKeys f₁ k = getRelatedIssueKeys f₂ k := by
  unfold getRelatedIssueKeys
  rw [h]

/-! ### The publisher `postComment`

`core.setFailed` is raised on a transport error, a non-success status, or —
since `response.json()` is awaited inside the same `try` — a success
response whose body does not parse. -/

/-- A reply of the tracker to the publisher's POST; `bodyOk` records whether
the success body parsed as JSON. -/
inductive PubReply where
  | netError (msg : String)
  | reply (ok : Bool) (status : Nat) (bodyOk : Bool)

/-- Did `postComment` call `core.setFailed` for this reply? -/
def pubFailed : PubReply → Bool
  | .netError _ => true
  | .reply ok _ bodyOk => !ok || !bodyOk

/-! ### The orchestrator `runWithPR`

The run is modelled as a pure function from the trigger event, the
configuration and the two transport oracles to the list of network calls it
issues, in order, and whether `core.setFailed` was ever called. -/

/-- The fields of `github.context.payload.pull_request` the script reads. -/
structure PullRequest where
  merged : Option Bool
  title : Option String
  headRef : Option String
  body : Option String
  number : Nat

/-- Configuration, trigger payload and transports of one run. -/
structure RunEnv where
  jiraToken : Option String
  jiraDomain : Option String
  pullRequest : Option PullRequest
  commitMessages : List String
  changedFiles : List String
  fetchIssue : String → TrackerReply
  publishReply : String → PubReply

/-- One outbound network request of the run. -/
inductive NetCall where
  | fetchCommits (prNumber : Nat)
  | fetchFiles (prNumber : Nat)
  | resolveRelated (key : String)
  | publishComment (key : String)
deriving DecidableEq

/-- What a run did: its network calls in order, and whether it signalled
failure. -/
structure RunResult where
  calls : List NetCall
  failed : Bool
deriving DecidableEq

/-- JavaScript truthiness of an optional environment string: `undefined`
and the empty string are falsy. -/
def truthyS : Option String → Bool
  | none => false
  | some s => !(s == "")

/-- `pr?.merged` as a truthiness test. -/
def wasMerged : Option PullRequest → Bool
  | none => false
  | some pr => pr.merged.getD false

/-- The text fragments handed to `extractIssueKeys`: title, branch name,
description, then every commit message. -/
def seedTexts (pr : PullRequest) (commitMessages : List String) : List (Option String) :=
  [pr.title, pr.headRef, pr.body] ++ commitMessages.map some

/-- `runWithPR()` of the latest revision: validate configuration, gate on
merge, fetch commits, extract seed keys, fetch changed files, expand each
seed one hop, then publish to every aggregated key. -/
def runWithPR (env : RunEnv) : RunResult :=
  if truthyS env.jiraToken = false then ⟨[], true⟩
  else if truthyS env.jiraDomain = false then ⟨[], true⟩
  else if wasMerged env.pullRequest = false then ⟨[], false⟩
  else
    match env.pullRequest with
    | none => ⟨[], false⟩
    | some pr =>
      let seeds := extractIssueKeys (seedTexts pr env.commitMessages)
      if seeds = [] then ⟨[.fetchCommits pr.number], true⟩
      else
        let allKeys := aggregateKeys seeds (getRelatedIssueKeys env.fetchIssue)
        ⟨.fetchCommits pr.number :: .fetchFiles pr.number ::
            (seeds.map .resolveRelated ++ allKeys.map .publishComment),
          allKeys.any fun k => pubFailed (env.publishReply k)⟩

/-- The publish targets recorded in a call list, in order. -/
def pubTarget : NetCall → Option String
  | .publishComment k => some k
  | _ => none

/-- Reduction of `runWithPR` on the main path: configuration present, PR
merged, at least one seed key extracted. -/
theorem runWithPR_main {env : RunEnv} {pr : PullRequest}
    (htok : truthyS env.jiraToken = true)
    (hdom : truthyS env.jiraDomain = true)
    (hpr : env.pullRequest = some pr)
    (hm : pr.merged.getD false = true)
    (hseeds : extractIssueKeys (seedTexts pr env.commitMessages) ≠ []) :
    runWithPR env =
      ⟨.fetchCommits pr.number :: .fetchFiles pr.number ::
          ((extractIssueKeys (seedTexts pr env.commitMessages)).map .resolveRelated ++
            (aggregateKeys (extractIssueKeys (seedTexts pr env.commitMessages))
              (getRelatedIssueKeys env.fetchIssue)).map .publishComment),
        (aggregateKeys (extractIssueKeys (seedTexts pr env.commitMessages))
            (getRelatedIssueKeys env.fetchIssue)).any
          fun k => pubFailed (env.publishReply k)⟩ := by
  unfold runWithPR
  rw [if_neg (by rw [htok]; simp), if_neg (by rw [hdom]; simp),
    if_neg (by rw [hpr]; simp [wasMerged, hm]), hpr]
  dsimp only
  rw [if_neg hseeds]

/-- Every resolver call of a run queries a seed key. -/
theorem resolveRelated_mem_calls {env : RunEnv} {k : String}
    (h : NetCall.resolveRelated k ∈ (runWithPR env).calls) :
    ∃ pr, env.pullRequest = some pr ∧
      k ∈ extractIssueKeys (seedTexts pr env.commitMessages) := by
  unfold runWithPR at h
  split at h
  · simp at h
  · split at h
    · simp at h
    · split at h
      · simp at h
      · split at h
        case h_1 => simp at h
        case h_2 heq pr hpr =>
          dsimp only at h
          split at h
          · simp at h
          · refine ⟨pr, hpr, ?_⟩
            simp at h
            exact h


/-- The publish-call multiplicity on the main-path call list is exactly the
multiplicity of the key in the aggregated list. -/
theorem count_publish_main (n m : Nat) (seeds allKeys : List String) (k : String) :
    (NetCall.fetchCommits n :: NetCall.fetchFiles m ::
        (seeds.map NetCall.resolveRelated ++ allKeys.map NetCall.publishComment)).count
      (NetCall.publishComment k) = allKeys.count k := by
  have h1 : (seeds.map NetCall.resolveRelated).count (NetCall.publishComment k) = 0 := by
    refine List.count_eq_zero.mpr ?_
    intro hmem
    obtain ⟨s, -, hs⟩ := List.mem_map.mp hmem
    simp at hs
  have h2 : (allKeys.map NetCall.publishComment).count (NetCall.publishComment k) =
      allKeys.count k :=
    List.count_map_of_injective _ _ (fun a b hab => by injection hab) k
  rw [List.count_cons_of_ne (by simp), List.count_cons_of_ne (by simp),
    List.count_append, h1, h2, Nat.zero_add]

/-- The publish targets on the main-path call list are exactly the
aggregated keys, in order. -/
theorem filterMap_pubTarget_main (n m : Nat) (seeds allKeys : List String) :
    (NetCall.fetchCommits n :: NetCall.fetchFiles m ::
        (seeds.map NetCall.resolveRelated ++ allKeys.map NetCall.publishComment)).filterMap
      pubTarget = allKeys := by
  rw [List.filterMap_cons_none rfl, List.filterMap_cons_none rfl, List.filterMap_append,
    List.filterMap_map, List.filterMap_map]
  have h1 : seeds.filterMap (pubTarget ∘ NetCall.resolveRelated) = [] := by
    induction seeds with
    | nil => rfl
    | cons s l ih => simp [List.filterMap_cons, pubTarget, Function.comp, ih]
  have h2 : allKeys.filterMap (pubTarget ∘ NetCall.publishComment) = allKeys := by
    induction allKeys with
    | nil => rfl
    | cons s l ih => simp [List.filterMap_cons, pubTarget, Function.comp, ih]
  rw [h1, h2, List.nil_append]

/-! ### Case normalization (`text.toUpperCase()`) -/

theorem char_toNat_ofNat {n : Nat} (h : n.isValidChar) : (Char.ofNat n).toNat = n := by
  unfold Char.ofNat
  rw [dif_pos h]
  rfl

theorem toUpper_eq_self {c : Char} (h : ¬(c.toNat ≥ 97 ∧ c.toNat ≤ 122)) :
    c.toUpper = c := by
  simp only [Char.toUpper]
  rw [if_neg h]

theorem toUpper_eq_ofNat {c : Char} (h : c.toNat ≥ 97 ∧ c.toNat ≤ 122) :
    c.toUpper = Char.ofNat (c.toNat - 32) := by
  simp only [Char.toUpper]
  rw [if_pos h]

theorem toUpper_idem (c : Char) : c.toUpper.toUpper = c.toUpper := by
  by_cases h : c.toNat ≥ 97 ∧ c.toNat ≤ 122
  · have h2 : (c.toUpper).toNat = c.toNat - 32 := by
      rw [toUpper_eq_ofNat h]
      exact char_toNat_ofNat (Or.inl (by omega))
    exact toUpper_eq_self (by rw [h2]; omega)
  · rw [toUpper_eq_self h, toUpper_eq_self h]

/-- The uppercase normalization of a fragment as a string. -/
def upperStr (s : String) : String := String.mk (upperList s)

theorem upperList_upperStr (s : String) : upperList (upperStr s) = upperList s := by
  unfold upperStr upperList
  rw [show (String.mk (s.data.map Char.toUpper)).data = s.data.map Char.toUpper from rfl,
    List.map_map]
  have hf : Char.toUpper ∘ Char.toUpper = Char.toUpper := funext fun c => toUpper_idem c
  rw [hf]

theorem upperStr_ne_empty {s : String} (h : s ≠ "") : upperStr s ≠ "" := by
  intro hcontra
  apply h
  apply String.ext
  have hdata : (upperStr s).data = s.data.map Char.toUpper := rfl
  rw [hcontra] at hdata
  have : s.data = [] := List.map_eq_nil_iff.mp hdata.symm
  rw [this]

theorem extractFromText_upper (ks : List String) (ot : Option String) :
    extractFromText ks (ot.map upperStr) = extractFromText ks ot := by
  cases ot with
  | none => rfl
  | some t =>
    by_cases ht : t = ""
    · subst ht
      rfl
    · show extractFromText ks (some (upperStr t)) = extractFromText ks (some t)
      have h1 : extractFromText ks (some (upperStr t)) =
          (scanKeys (upperList (upperStr t)) false).foldl insertKey ks := by
        simp only [extractFromText, if_neg (upperStr_ne_empty ht)]
      have h2 : extractFromText ks (some t) =
          (scanKeys (upperList t) false).foldl insertKey ks := by
        simp only [extractFromText, if_neg ht]
      rw [h1, h2, upperList_upperStr]

theorem extractIssueKeys_upper (texts : List (Option String)) :
    extractIssueKeys (texts.map (Option.map upperStr)) = extractIssueKeys texts := by
  unfold extractIssueKeys
  generalize [] = ks
  induction texts generalizing ks with
  | nil => rfl
  | cons ot ts ih =>
    rw [List.map_cons, List.foldl_cons, List.foldl_cons, extractFromText_upper]
    exact ih _

/-- No key ever receives more than one publish attempt in a run. -/
theorem count_publish_le_one (env : RunEnv) (k : String) :
    (runWithPR env).calls.count (NetCall.publishComment k) ≤ 1 := by
  unfold runWithPR
  split
  · simp
  · split
    · simp
    · split
      · simp
      · split
        case h_1 => simp
        case h_2 heq pr hpr =>
          dsimp only
          split
          · simp [List.count_cons]
          · rw [show ∀ (l : List NetCall) (b : Bool), (RunResult.mk l b).calls = l
                from fun _ _ => rfl,
              count_publish_main]
            exact List.nodup_iff_count_le_one.mp (nodup_aggregateKeys _ _) k

/-! ### Concrete transports, payloads and environments used as witnesses -/

/-- A transport on which every resolver query fails at the network level. -/
def fetchDown : String → TrackerReply := fun _ => TrackerReply.netError "ECONNREFUSED"

/-- A resolver map with a self-reference: `ABC-1` lists itself and `XYZ-5`. -/
def resolverSelf : String → List String :=
  fun k => if k = "ABC-1" then ["ABC-1", "XYZ-5"] else []

/-- A merged PR whose title carries two issue keys. -/
def prC7 : PullRequest :=
  { merged := some true, title := some "AB-1 CD-2", headRef := none, body := none, number := 7 }

/-- A run whose resolver is down and whose publish to `AB-1` fails. -/
def envC7 : RunEnv :=
  { jiraToken := some "token", jiraDomain := some "https://jira.example.com",
    pullRequest := some prC7, commitMessages := [], changedFiles := [],
    fetchIssue := fetchDown,
    publishReply := fun k =>
      if k = "AB-1" then PubReply.netError "socket hang up" else PubReply.reply true 201 true }

/-- A run with no tracker token configured. -/
def envC8 : RunEnv :=
  { jiraToken := none, jiraDomain := some "https://jira.example.com",
    pullRequest := some prC7, commitMessages := [], changedFiles := [],
    fetchIssue := fetchDown, publishReply := fun _ => PubReply.netError "x" }

/-- A pull request closed without being merged. -/
def prC9 : PullRequest :=
  { merged := some false, title := some "AB-1", headRef := none, body := none, number := 9 }

/-- A run whose pull request was closed without being merged. -/
def envC9 : RunEnv :=
  { jiraToken := some "token", jiraDomain := some "https://jira.example.com",
    pullRequest := some prC9, commitMessages := [], changedFiles := [],
    fetchIssue := fetchDown, publishReply := fun _ => PubReply.netError "x" }

/-- A merged PR with a single seed key. -/
def prC10 : PullRequest :=
  { merged := some true, title := some "AB-1", headRef := none, body := none, number := 10 }

/-- A run whose tracker reports a malformed subtask key for every issue. -/
def envC10 : RunEnv :=
  { jiraToken := some "token", jiraDomain := some "https://jira.example.com",
    pullRequest := some prC10, commitMessages := [], changedFiles := [],
    fetchIssue := fun _ => TrackerReply.reply true 200 (some
      { subtasks := some [some "bad key"], issuelinks := some [] }),
    publishReply := fun _ => PubReply.reply true 201 true }

/-! ### The claims -/

/-- C1: the aggregated key set is exactly the union of the seed keys and the
first-hop related keys returned by the Resolver for each seed key; a key
reachable only through a related key's own relations (here `QRS-1`, related
to `XYZ-5` which is related to seed `ABC-1`) never appears, while every
seed key and every key returned for a seed key does appear. -/
theorem aggregate_is_one_hop_union :
    (∀ (seeds : List String) (resolver : String → List String) (x : String),
      x ∈ aggregateKeys seeds resolver ↔ x ∈ seeds ∨ ∃ s ∈ seeds, x ∈ resolver s) ∧
    aggregateKeys ["ABC-1"]
        (fun k => if k = "ABC-1" then ["XYZ-5"] else if k = "XYZ-5" then ["QRS-1"] else []) =
      ["ABC-1", "XYZ-5"] :=
  ⟨fun _ _ _ => mem_aggregateKeys, by decide⟩

/-- C2: `extractIssueKeys` finds every non-overlapping occurrence of the key
pattern in every fragment, accumulates them into one deduplicated set, and
absent or empty fragments contribute nothing; the example fragment yields
exactly its three keys. -/
theorem extract_finds_all_occurrences :
    extractIssueKeys [some "Fixes ABC-1 and ABC-2, see DEF-9"] = ["ABC-1", "ABC-2", "DEF-9"] ∧
    (∀ (texts : List (Option String)) (x : String),
      x ∈ extractIssueKeys texts ↔ ∃ t, some t ∈ texts ∧ x ∈ scanKeys (upperList t) false) ∧
    (∀ pre post, extractIssueKeys (pre ++ none :: post) = extractIssueKeys (pre ++ post)) ∧
    (∀ pre post, extractIssueKeys (pre ++ some "" :: post) = extractIssueKeys (pre ++ post)) ∧
    (∀ texts, (extractIssueKeys texts).Nodup) := by
  refine ⟨by decide, fun _ _ => mem_extractIssueKeys, ?_, ?_, nodup_extractIssueKeys⟩
  · intro pre post
    rw [extractIssueKeys, extractIssueKeys, List.foldl_append, List.foldl_append,
      List.foldl_cons]
    rfl
  · intro pre post
    rw [extractIssueKeys, extractIssueKeys, List.foldl_append, List.foldl_append,
      List.foldl_cons]
    rfl

/-- C3: extraction only ever produces well-formed keys, so malformed tokens
— too few letters, too many letters, no hyphen, no digits — never appear in
the result; the four sample malformed fragments each extract to nothing. -/
theorem extract_rejects_malformed :
    (∀ (texts : List (Option String)) (k : String),
      k ∈ extractIssueKeys texts → isWellFormedKey k = true) ∧
    extractIssueKeys [some "A-123"] = [] ∧
    extractIssueKeys [some "ABCDEFGHKLM-1"] = [] ∧
    extractIssueKeys [some "ABC123"] = [] ∧
    extractIssueKeys [some "ABC-"] = [] ∧
    isWellFormedKey "A-123" = false ∧
    isWellFormedKey "ABCDEFGHKLM-1" = false ∧
    isWellFormedKey "ABC123" = false ∧
    isWellFormedKey "ABC-" = false :=
  ⟨fun _ _ h => extractIssueKeys_wf h, by decide, by decide, by decide, by decide,
    by decide, by decide, by decide, by decide⟩

/-- Witness for C3: a concrete extracted key is well-formed. -/
theorem extract_rejects_malformed_witness :
    "DOSE-104" ∈ extractIssueKeys [some "fix DOSE-104"] ∧
      isWellFormedKey "DOSE-104" = true :=
  ⟨by decide, extract_rejects_malformed.1 [some "fix DOSE-104"] "DOSE-104" (by decide)⟩

/-- C4: extraction is case-insensitive: uppercasing every fragment first
changes nothing, and lowercase and uppercase spellings of the same key
yield the same normalized key, collapsing to one set element. -/
theorem extract_case_insensitive :
    (∀ texts, extractIssueKeys (texts.map (Option.map upperStr)) = extractIssueKeys texts) ∧
    extractIssueKeys [some "dose-104"] = ["DOSE-104"] ∧
    extractIssueKeys [some "DOSE-104"] = ["DOSE-104"] ∧
    extractIssueKeys [some "dose-104", some "DOSE-104"] = ["DOSE-104"] :=
  ⟨extractIssueKeys_upper, by decide, by decide, by decide⟩

/-- C5: the resolver returns an empty result on any failure reply (network
error, non-success status, unusable body); resolution of a key depends only
on that key's own reply; and every seed key stays in the aggregated set, so
one key's resolver failure leaves the others' resolution and publishing
unaffected. -/
theorem resolver_failure_returns_empty :
    ∀ (fetch fetch' : String → TrackerReply) (k : String) (seeds : List String),
      (isFailureReply (fetch k) = true → getRelatedIssueKeys fetch k = []) ∧
      (fetch k = fetch' k → getRelatedIssueKeys fetch k = getRelatedIssueKeys fetch' k) ∧
      (k ∈ seeds → k ∈ aggregateKeys seeds (getRelatedIssueKeys fetch)) :=
  fun _ _ _ _ =>
    ⟨getRelatedIssueKeys_of_failure, getRelatedIssueKeys_congr,
      fun hk => mem_aggregateKeys.mpr (Or.inl hk)⟩

/-- Witness for C5: with the transport down, `A-1` resolves to the empty
set and sibling seed `B-2` still reaches the aggregated set. -/
theorem resolver_failure_returns_empty_witness :
    getRelatedIssueKeys fetchDown "A-1" = [] ∧
      "B-2" ∈ aggregateKeys ["A-1", "B-2"] (getRelatedIssueKeys fetchDown) :=
  ⟨(resolver_failure_returns_empty fetchDown fetchDown "A-1" []).1 rfl,
    (resolver_failure_returns_empty fetchDown fetchDown "B-2" ["A-1", "B-2"]).2.2 (by decide)⟩

/-- C6: aggregation is idempotent and order-independent: permuting the seed
list leaves the final membership unchanged; related keys already present in
the seed set add nothing; and the self-referencing example yields exactly
its two keys. -/
theorem aggregate_order_independent :
    ∀ (s₁ s₂ : List String) (r : String → List String), s₁.Perm s₂ →
      (∀ x, x ∈ aggregateKeys s₁ r ↔ x ∈ aggregateKeys s₂ r) ∧
      ((∀ k ∈ s₁, ∀ y ∈ r k, y ∈ s₁) → ∀ x, x ∈ aggregateKeys s₁ r ↔ x ∈ s₁) ∧
      aggregateKeys ["ABC-1"] resolverSelf = ["ABC-1", "XYZ-5"] := by
  intro s₁ s₂ r hperm
  refine ⟨?_, ?_, by decide⟩
  · intro x
    rw [mem_aggregateKeys, mem_aggregateKeys]
    constructor
    · rintro (hx | ⟨s, hs, hxs⟩)
      · exact Or.inl (hperm.mem_iff.mp hx)
      · exact Or.inr ⟨s, hperm.mem_iff.mp hs, hxs⟩
    · rintro (hx | ⟨s, hs, hxs⟩)
      · exact Or.inl (hperm.mem_iff.mpr hx)
      · exact Or.inr ⟨s, hperm.mem_iff.mpr hs, hxs⟩
  · intro hsub x
    rw [mem_aggregateKeys]
    constructor
    · rintro (hx | ⟨s, hs, hxs⟩)
      · exact hx
      · exact hsub s hs x hxs
    · exact Or.inl

/-- Witness for C6: applied to a concrete permutation of two seeds. -/
theorem aggregate_order_independent_witness :
    aggregateKeys ["ABC-1"] resolverSelf = ["ABC-1", "XYZ-5"] :=
  (aggregate_order_independent ["A-1", "B-2"] ["B-2", "A-1"] resolverSelf (by decide)).2.2

/-- C7: on the main path every aggregated key receives exactly one publish
attempt — the publish targets are precisely the aggregated keys, each with
multiplicity one, independent of any other key's outcome — and the run is
marked failed exactly when at least one publish attempt failed, after all
attempts are issued. -/
theorem publish_failure_isolated :
    ∀ (env : RunEnv) (pr : PullRequest),
      truthyS env.jiraToken = true →
      truthyS env.jiraDomain = true →
      env.pullRequest = some pr →
      pr.merged.getD false = true →
      extractIssueKeys (seedTexts pr env.commitMessages) ≠ [] →
      ((runWithPR env).calls.filterMap pubTarget =
          aggregateKeys (extractIssueKeys (seedTexts pr env.commitMessages))
            (getRelatedIssueKeys env.fetchIssue)) ∧
      (∀ k ∈ aggregateKeys (extractIssueKeys (seedTexts pr env.commitMessages))
            (getRelatedIssueKeys env.fetchIssue),
          (runWithPR env).calls.count (NetCall.publishComment k) = 1) ∧
      ((runWithPR env).failed = true ↔
        ∃ k ∈ aggregateKeys (extractIssueKeys (seedTexts pr env.commitMessages))
            (getRelatedIssueKeys env.fetchIssue),
          pubFailed (env.publishReply k) = true) := by
  intro env pr htok hdom hpr hm hseeds
  rw [runWithPR_main htok hdom hpr hm hseeds]
  refine ⟨filterMap_pubTarget_main _ _ _ _, ?_, ?_⟩
  · intro k hk
    exact (count_publish_main _ _ _ _ k).trans
      (List.count_eq_one_of_mem (nodup_aggregateKeys _ _) hk)
  · constructor
    · intro hany
      obtain ⟨x, hx, hpx⟩ := List.any_eq_true.mp hany
      exact ⟨x, hx, hpx⟩
    · rintro ⟨x, hx, hpx⟩
      exact List.any_eq_true.mpr ⟨x, hx, hpx⟩

/-- Witness for C7: in the concrete run, the failed publish to `AB-1` does
not prevent the publish attempt to `CD-2`, and the run is marked failed. -/
theorem publish_failure_isolated_witness :
    (runWithPR envC7).calls.count (NetCall.publishComment "CD-2") = 1 ∧
      (runWithPR envC7).failed = true :=
  ⟨(publish_failure_isolated envC7 prC7 (by decide) (by decide) rfl (by decide)
      (by decide)).2.1 "CD-2" (by decide),
    ((publish_failure_isolated envC7 prC7 (by decide) (by decide) rfl (by decide)
      (by decide)).2.2).mpr ⟨"AB-1", by decide, by decide⟩⟩

/-- C8: if the tracker auth token or the tracker base address is absent
(or empty), the run terminates as a fatal configuration failure with zero
network calls of any kind. -/
theorem missing_config_fatal :
    ∀ env : RunEnv,
      truthyS env.jiraToken = false ∨ truthyS env.jiraDomain = false →
      runWithPR env = ⟨[], true⟩ := by
  intro env h
  unfold runWithPR
  rcases h with h | h
  · rw [if_pos h]
  · by_cases ht : truthyS env.jiraToken = false
    · rw [if_pos ht]
    · rw [if_neg ht, if_pos h]

/-- Witness for C8: the concrete run without a token makes no calls and
fails. -/
theorem missing_config_fatal_witness : runWithPR envC8 = ⟨[], true⟩ :=
  missing_config_fatal envC8 (Or.inl rfl)

/-- C9: with configuration present, a trigger event whose pull request was
closed without being merged (merged false or absent) terminates the run
successfully with zero network calls and no failure signal. -/
theorem unmerged_pr_noop :
    ∀ env : RunEnv,
      truthyS env.jiraToken = true →
      truthyS env.jiraDomain = true →
      wasMerged env.pullRequest = false →
      runWithPR env = ⟨[], false⟩ := by
  intro env htok hdom hm
  unfold runWithPR
  rw [if_neg (by rw [htok]; simp), if_neg (by rw [hdom]; simp), if_pos hm]

/-- Witness for C9: the concrete non-merged run is a successful no-op. -/
theorem unmerged_pr_noop_witness : runWithPR envC9 = ⟨[], false⟩ :=
  unmerged_pr_noop envC9 (by decide) (by decide) rfl

/-- C10 counterexample: not every issue key interpolated into a tracker
request URL during a run is well-formed — a malformed key returned by the
tracker as a related key is published to verbatim. -/
theorem url_keys_wellformed_cex :
    NetCall.publishComment "bad key" ∈ (runWithPR envC10).calls ∧
      isWellFormedKey "bad key" = false := by
  constructor
  · decide
  · decide

/-- C10 (amended): every element of the array returned by
`extractIssueKeys` is a well-formed normalized key and the elements are
pairwise distinct, so every key used in a resolver request URL is
well-formed and each key is published to at most once; keys returned by the
tracker are interpolated into publish URLs without re-validation. -/
theorem extract_wellformed_invariant :
    (∀ texts : List (Option String),
      (∀ k ∈ extractIssueKeys texts, isWellFormedKey k = true) ∧
        (extractIssueKeys texts).Nodup) ∧
    (∀ (env : RunEnv) (k : String),
      NetCall.resolveRelated k ∈ (runWithPR env).calls → isWellFormedKey k = true) ∧
    (∀ (env : RunEnv) (k : String),
      (runWithPR env).calls.count (NetCall.publishComment k) ≤ 1) := by
  refine ⟨fun texts => ⟨fun _ hk => extractIssueKeys_wf hk, nodup_extractIssueKeys texts⟩,
    ?_, count_publish_le_one⟩
  intro env k hk
  obtain ⟨pr, -, hmem⟩ := resolveRelated_mem_calls hk
  exact extractIssueKeys_wf hmem

/-- Witness for C10: the seed key of the concrete run is resolved through a
well-formed URL component. -/
theorem extract_wellformed_invariant_witness : isWellFormedKey "AB-1" = true :=
  extract_wellformed_invariant.2.1 envC10 "AB-1" (by decide)

end LiteJira
